import Mathlib

/-!
Verification of the document access gate and the scoped pixel-buffer view
of the Aseprite document core (src/app/document.cpp, src/raster/image_bits.h).

The gate state consists of the fields m_read_locks and m_write_lock of
app::Document; the five operations are Document::lock(ReadLock),
Document::lock(WriteLock), Document::lockToWrite, Document::unlockToRead
and Document::unlock.  Every operation runs inside a single mutex-guarded
critical section in the source, so each operation is modelled as one
atomic state transition.  C++ ASSERT statements (active in debug builds)
are modelled as separate Boolean predicates on the pre-state.
-/

namespace Aseprite

/-- Gate state: field m_read_locks and m_write_lock of app::Document. -/
structure Gate where
  read_locks : Nat
  write_lock : Bool
deriving DecidableEq, Repr

/-- Lock request type of Document::lock (enum LockType). -/
inductive LockType where
  | readLock
  | writeLock
deriving DecidableEq, Repr

/-- Gate state of a freshly constructed Document: the constructor
initialises m_write_lock(false) and m_read_locks(0). -/
def Gate.fresh : Gate := ⟨0, false⟩

namespace Document

/-- Document::lock (document.cpp lines 438-465): a ReadLock succeeds and
increments m_read_locks when no writer is active; a WriteLock succeeds and
sets m_write_lock when there is no reader and no writer; every other case
returns false without touching the state. -/
def lock (lockType : LockType) (s : Gate) : Bool × Gate :=
  match lockType with
  | .readLock =>
      if !s.write_lock then
        (true, { s with read_locks := s.read_locks + 1 })
      else
        (false, s)
  | .writeLock =>
      if s.read_locks = 0 && !s.write_lock then
        (true, { s with write_lock := true })
      else
        (false, s)

/-- Document::lockToWrite (document.cpp lines 467-480): succeeds exactly
when m_read_locks == 1, in which case it sets m_read_locks = 0 and
m_write_lock = true; otherwise it returns false and leaves the state
untouched. -/
def lockToWrite (s : Gate) : Bool × Gate :=
  if s.read_locks = 1 then
    (true, { read_locks := 0, write_lock := true })
  else
    (false, s)

/-- ASSERT(!m_write_lock) inside the successful branch of
Document::lockToWrite: holds unless the branch is entered with an active
writer. -/
def lockToWriteAssertOk (s : Gate) : Bool :=
  if s.read_locks = 1 then !s.write_lock else true

/-- Document::unlockToRead (document.cpp lines 482-491): unconditionally
sets m_write_lock = false and m_read_locks = 1. -/
def unlockToRead (_s : Gate) : Gate :=
  { read_locks := 1, write_lock := false }

/-- ASSERT(m_read_locks == 0) and ASSERT(m_write_lock) at the top of
Document::unlockToRead. -/
def unlockToReadAssertOk (s : Gate) : Bool :=
  s.read_locks = 0 && s.write_lock

/-- Document::unlock (document.cpp lines 493-506): clears m_write_lock when
a writer is active, otherwise decrements m_read_locks when readers are
outstanding, otherwise (the ASSERT(false) branch) leaves the state
unchanged. -/
def unlock (s : Gate) : Gate :=
  if s.write_lock then
    { s with write_lock := false }
  else if s.read_locks > 0 then
    { s with read_locks := s.read_locks - 1 }
  else
    s

/-- ASSERT(false) branch of Document::unlock: the assertion fires exactly
when the gate is empty (no writer and no reader). -/
def unlockAssertOk (s : Gate) : Bool :=
  s.write_lock || s.read_locks > 0

end Document

/-- One call in a call sequence against the gate. -/
inductive GateOp where
  | acquireRead
  | acquireWrite
  | promote
  | demote
  | release
deriving DecidableEq, Repr

/-- State transition of a single gate call (the Boolean result of
tryAcquire and promote is dropped; only the state matters here). -/
def Gate.step (s : Gate) (op : GateOp) : Gate :=
  match op with
  | .acquireRead => (Document.lock .readLock s).2
  | .acquireWrite => (Document.lock .writeLock s).2
  | .promote => (Document.lockToWrite s).2
  | .demote => Document.unlockToRead s
  | .release => Document.unlock s

/-- State after running a whole call sequence from a given state. -/
def Gate.run (s : Gate) (ops : List GateOp) : Gate :=
  ops.foldl Gate.step s

/-- Gate invariant: an active writer excludes all readers. -/
def Gate.inv (s : Gate) : Prop :=
  s.write_lock = true → s.read_locks = 0

instance (s : Gate) : Decidable (Gate.inv s) := by
  unfold Gate.inv; infer_instance

/-- Every single gate call preserves the invariant. -/
theorem Gate.step_preserves_inv (s : Gate) (op : GateOp) (h : Gate.inv s) :
    Gate.inv (Gate.step s op) := by
  obtain ⟨r, w⟩ := s
  cases op <;> cases w <;>
    simp_all [Gate.step, Gate.inv, Document.lock, Document.lockToWrite,
      Document.unlockToRead, Document.unlock] <;>
    split_ifs <;> simp_all

/-- A run from an invariant state ends in an invariant state. -/
theorem Gate.run_preserves_inv (ops : List GateOp) (s : Gate) (h : Gate.inv s) :
    Gate.inv (Gate.run s ops) := by
  induction ops generalizing s with
  | nil => exact h
  | cons op ops ih =>
      exact ih (Gate.step s op) (Gate.step_preserves_inv s op h)

/-- C1: for every sequence of tryAcquire(Read), tryAcquire(Write), promote,
demote and release calls starting from a fresh gate (readerCount == 0,
writerActive == false), the invariant writerActive implies readerCount == 0
holds after every call.  Since the sequence is universally quantified, the
state after any particular call of a longer sequence is covered by running
the prefix ending at that call. -/
theorem C1_gate_invariant_all_sequences (ops : List GateOp) :
    Gate.inv (Gate.run Gate.fresh ops) :=
  Gate.run_preserves_inv ops Gate.fresh (by decide)

/-- C2: tryAcquire(Read) succeeds and increments the reader count exactly
when no writer is active; tryAcquire(Write) succeeds and sets the writer
flag exactly when the gate is empty; in every other state the call returns
false and leaves the state unchanged.  This holds for every state, the
unreachable ones included. -/
theorem C2_tryAcquire_exact (s : Gate) :
    ((Document.lock .readLock s).1 = true ↔ s.write_lock = false)
    ∧ ((Document.lock .readLock s).1 = true →
        (Document.lock .readLock s).2 =
          { read_locks := s.read_locks + 1, write_lock := false })
    ∧ ((Document.lock .readLock s).1 = false → (Document.lock .readLock s).2 = s)
    ∧ ((Document.lock .writeLock s).1 = true ↔
        (s.read_locks = 0 ∧ s.write_lock = false))
    ∧ ((Document.lock .writeLock s).1 = true →
        (Document.lock .writeLock s).2 = { read_locks := 0, write_lock := true })
    ∧ ((Document.lock .writeLock s).1 = false → (Document.lock .writeLock s).2 = s) := by
  obtain ⟨r, w⟩ := s
  cases w
  all_goals simp [Document.lock]
  all_goals aesop

/-- Witness for C2 at concrete states. -/
theorem C2_tryAcquire_exact_witness :
    (Document.lock .readLock ⟨2, false⟩).2 = ({ read_locks := 3, write_lock := false } : Gate)
    ∧ (Document.lock .writeLock ⟨0, true⟩).2 = ({ read_locks := 0, write_lock := true } : Gate) :=
  ⟨(C2_tryAcquire_exact ⟨2, false⟩).2.1 (by decide),
   (C2_tryAcquire_exact ⟨0, true⟩).2.2.2.2.2 (by decide)⟩

/-- C3: on every gate state satisfying the gate invariant (the data-model
invariant of AccessGate, which holds in every reachable state by C1),
promote succeeds exactly when readerCount == 1 and writerActive == false,
in which case it sets readerCount = 0 and writerActive = true; in every
other invariant state (zero readers, two or more readers, or an active
writer) it returns false and leaves the state unchanged. -/
theorem C3_promote_exact (s : Gate) (h : Gate.inv s) :
    ((Document.lockToWrite s).1 = true ↔ (s.read_locks = 1 ∧ s.write_lock = false))
    ∧ ((Document.lockToWrite s).1 = true →
        (Document.lockToWrite s).2 = { read_locks := 0, write_lock := true })
    ∧ ((Document.lockToWrite s).1 = false → (Document.lockToWrite s).2 = s) := by
  obtain ⟨r, w⟩ := s
  cases w with
  | false => simp [Document.lockToWrite]; aesop
  | true =>
      have hr : r = 0 := h rfl
      subst hr
      simp [Document.lockToWrite]

/-- Witness for C3: a single-reader state promotes, a two-reader state
does not. -/
theorem C3_promote_exact_witness :
    (Document.lockToWrite ⟨1, false⟩).2 = ({ read_locks := 0, write_lock := true } : Gate)
    ∧ (Document.lockToWrite ⟨2, false⟩).2 = ({ read_locks := 2, write_lock := false } : Gate) :=
  ⟨(C3_promote_exact ⟨1, false⟩ (by decide)).2.1 (by decide),
   (C3_promote_exact ⟨2, false⟩ (by decide)).2.2 (by decide)⟩

/-- C4: from every invariant gate state in which promote succeeds, a demote
immediately afterwards restores exactly the pre-promote state, and that
state is the single-reader state (readerCount == 1, writerActive == false). -/
theorem C4_promote_demote_identity (s : Gate) (h : Gate.inv s)
    (hs : (Document.lockToWrite s).1 = true) :
    Document.unlockToRead (Document.lockToWrite s).2 = s
    ∧ s.read_locks = 1 ∧ s.write_lock = false := by
  obtain ⟨hr, hw⟩ := (C3_promote_exact s h).1.mp hs
  obtain ⟨r, w⟩ := s
  simp_all [Document.unlockToRead]

/-- Witness for C4 at the single-reader state. -/
theorem C4_promote_demote_identity_witness :
    Document.unlockToRead (Document.lockToWrite ⟨1, false⟩).2 = (⟨1, false⟩ : Gate) :=
  (C4_promote_demote_identity ⟨1, false⟩ (by decide) (by decide)).1

/-- C5: releasing a read ticket (invariant state with readerCount > 0)
decrements the reader count by one and changes nothing else; releasing the
write ticket (writerActive == true) clears the writer flag and changes
nothing else; releasing on the empty gate trips the ASSERT(false) branch
(the assertion predicate is false there), it is not a silent success, and
the state is left unchanged. -/
theorem C5_release_exact :
    (∀ s : Gate, s.write_lock = false → 0 < s.read_locks →
      Document.unlock s = { read_locks := s.read_locks - 1, write_lock := false }
      ∧ Document.unlockAssertOk s = true)
    ∧ (∀ s : Gate, s.write_lock = true →
      Document.unlock s = { read_locks := s.read_locks, write_lock := false }
      ∧ Document.unlockAssertOk s = true)
    ∧ (Document.unlockAssertOk Gate.fresh = false
      ∧ Document.unlock Gate.fresh = Gate.fresh) := by
  refine ⟨?_, ?_, by decide⟩
  · intro s hw hr
    obtain ⟨r, w⟩ := s
    simp only at hw
    subst hw
    simp [Document.unlock, Document.unlockAssertOk, hr]
  · intro s hw
    obtain ⟨r, w⟩ := s
    simp only at hw
    subst hw
    simp [Document.unlock, Document.unlockAssertOk]

/-- Witness for C5 at concrete states: one reader released, one writer
released. -/
theorem C5_release_exact_witness :
    Document.unlock ⟨2, false⟩ = ({ read_locks := 1, write_lock := false } : Gate)
    ∧ Document.unlock ⟨0, true⟩ = ({ read_locks := 0, write_lock := false } : Gate) :=
  ⟨(C5_release_exact.1 ⟨2, false⟩ rfl (by decide)).1,
   (C5_release_exact.2.1 ⟨0, true⟩ rfl).1⟩

/-!
Buffer views: raster::ImageBits (src/raster/image_bits.h).  A view stores a
pointer m_image to the underlying image and a rectangle m_bounds.  The
element iterator class ImageIterator is declared in
raster/image_iterator.h, which is outside the given sources; its increment
is therefore modelled from the spec (row-major traversal), while the
constructor, begin, end and unlock of ImageBits are translated from the
given header.
-/

/-- Rectangle with integer origin and extent (gfx::Rect). -/
structure Rect where
  x : Int
  y : Int
  w : Int
  h : Int
deriving DecidableEq, Repr

/-- Raster image extents (Image::width and Image::height). -/
structure ImageExtents where
  width : Int
  height : Int
deriving DecidableEq, Repr

/-- Containment condition of the ASSERT in the ImageBits constructor
(image_bits.h lines 48-49): bounds.x >= 0, bounds.x+bounds.w <= width,
bounds.y >= 0, bounds.y+bounds.h <= height. -/
def boundsContained (img : ImageExtents) (b : Rect) : Bool :=
  decide (0 ≤ b.x) && decide (b.x + b.w ≤ img.width) &&
  decide (0 ≤ b.y) && decide (b.y + b.h ≤ img.height)

/-- ImageBits view: field m_image (a nullable image pointer, none models
NULL) and field m_bounds. -/
structure ImageBits where
  m_image : Option ImageExtents
  m_bounds : Rect
deriving DecidableEq, Repr

/-- ImageBits constructor from an image and a rectangle (image_bits.h
lines 45-50).  The containment ASSERT is modelled as an eager failure
(debug-build semantics): a region not fully contained in the image extents
yields an error before any view, and hence any iterator, exists. -/
def ImageBits.make (img : ImageExtents) (bounds : Rect) : Except String ImageBits :=
  if boundsContained img bounds then
    .ok ⟨some img, bounds⟩
  else
    .error "region out of image bounds"

/-- ImageBits::unlock (image_bits.h lines 105-110): when m_image is
non-null the view forwards the release to Image::unlockBits and clears
m_image; when m_image is already null the guard fails and nothing happens.
The Boolean records whether the release was forwarded to the image.  The
source contains no assertion in this member. -/
def ImageBits.unlock (b : ImageBits) : ImageBits × Bool :=
  match b.m_image with
  | some _ => ({ b with m_image := none }, true)
  | none => (b, false)

/-- Iterator position: the current x, y coordinates of an ImageIterator. -/
@[ext]
structure IterPos where
  x : Int
  y : Int
deriving DecidableEq, Repr

namespace ImageIterator

/-- Modelled from the spec: the increment of ImageIterator
(raster/image_iterator.h is not among the given sources).  The spec
requires row-major traversal of the view rectangle: within a row the
iterator moves one element to the right; past the last column
(bounds.x + bounds.w - 1) it wraps to the first column of the next row. -/
def inc (b : Rect) (p : IterPos) : IterPos :=
  if p.x + 1 ≤ b.x + b.w - 1 then ⟨p.x + 1, p.y⟩ else ⟨b.x, p.y + 1⟩

end ImageIterator

namespace ImageBits

/-- ImageBits::begin (image_bits.h lines 59-61): an iterator positioned at
(m_bounds.x, m_bounds.y). -/
def beginPos (b : Rect) : IterPos := ⟨b.x, b.y⟩

/-- ImageBits::end (image_bits.h lines 62-66): an iterator positioned at
(m_bounds.x + m_bounds.w - 1, m_bounds.y + m_bounds.h - 1) and then
incremented once. -/
def endPos (b : Rect) : IterPos :=
  ImageIterator.inc b ⟨b.x + b.w - 1, b.y + b.h - 1⟩

/-- Position reached after k increments from begin. -/
def iterN (b : Rect) (k : Nat) : IterPos :=
  (ImageIterator.inc b)^[k] (beginPos b)

/-- Sequence of positions visited when iterating from begin to end: the
view holds w*h elements.  Restarting from begin reproduces the same
sequence, because begin and the increment depend only on the stored
bounds. -/
def visited (b : Rect) : List IterPos :=
  (List.range (b.w.toNat * b.h.toNat)).map (iterN b)

end ImageBits

/-- Row-major enumeration of a rectangle, in the words of the spec: all
elements of row y left to right, then row y+1, and so on. -/
def rowMajor (b : Rect) : List IterPos :=
  (List.range b.h.toNat).flatMap
    (fun j : Nat => (List.range b.w.toNat).map
      (fun i : Nat => ⟨b.x + (i : Int), b.y + (j : Int)⟩))

/-- Closed form for the iterator position after k increments: column
k mod w, row k div w, for every k, provided the view is at least one
element wide. -/
theorem ImageBits.iterN_formula (b : Rect) (hw : 0 < b.w) (k : Nat) :
    ImageBits.iterN b k = ⟨b.x + ((k % b.w.toNat : Nat) : Int),
                           b.y + ((k / b.w.toNat : Nat) : Int)⟩ := by
  set W := b.w.toNat with hWdef
  have hW : 0 < W := by omega
  have hWI : (W : Int) = b.w := by omega
  induction k with
  | zero =>
      simp [ImageBits.iterN, ImageBits.beginPos, Nat.zero_mod, Nat.zero_div]
  | succ k ih =>
      have hstep : ImageBits.iterN b (k + 1) =
          ImageIterator.inc b (ImageBits.iterN b k) := by
        simp [ImageBits.iterN, Function.iterate_succ_apply']
      rw [hstep, ih]
      have hmodlt : k % W < W := Nat.mod_lt _ hW
      have hsplit := Nat.div_add_mod k W
      by_cases hcase : k % W + 1 < W
      · have hxlt : (b.x + ((k % W : Nat) : Int)) + 1 ≤ b.x + b.w - 1 := by
          omega
        have hk1 : k + 1 = (k % W + 1) + W * (k / W) := by omega
        have hmod : (k + 1) % W = k % W + 1 := by
          rw [hk1, Nat.add_mul_mod_self_left]
          exact Nat.mod_eq_of_lt hcase
        have hdiv : (k + 1) / W = k / W := by
          rw [hk1, Nat.add_mul_div_left _ _ hW, Nat.div_eq_of_lt hcase,
            Nat.zero_add]
        simp only [ImageIterator.inc]
        rw [if_pos hxlt, hmod, hdiv]
        refine IterPos.ext ?_ ?_
        all_goals dsimp only
        all_goals (push_cast; ring)
      · have hmodeq : k % W = W - 1 := by omega
        have hxge : ¬ ((b.x + ((k % W : Nat) : Int)) + 1 ≤ b.x + b.w - 1) := by
          omega
        have hk1 : k + 1 = W * (k / W) + W := by omega
        have hk2 : k + 1 = W * (k / W + 1) := by
          rw [Nat.mul_succ]; exact hk1
        have hmod : (k + 1) % W = 0 := by
          rw [hk2]; exact Nat.mul_mod_right _ _
        have hdiv : (k + 1) / W = k / W + 1 := by
          rw [hk2]; exact Nat.mul_div_cancel_left _ hW
        simp only [ImageIterator.inc]
        rw [if_neg hxge, hmod, hdiv]
        refine IterPos.ext ?_ ?_
        all_goals dsimp only
        all_goals (push_cast; ring)

/-- Arithmetic form of the row-major list: enumerating k from 0 to W*H-1
and splitting k into column k mod W and row k div W gives exactly the
row-by-row enumeration. -/
theorem range_mul_map_eq_rowMajor (x y : Int) (W H : Nat) (hW : 0 < W) :
    (List.range (W * H)).map
        (fun k => (⟨x + ((k % W : Nat) : Int), y + ((k / W : Nat) : Int)⟩ : IterPos)) =
      (List.range H).flatMap
        (fun j : Nat => (List.range W).map
          (fun i : Nat => ⟨x + (i : Int), y + (j : Int)⟩)) := by
  induction H with
  | zero => simp
  | succ H ih =>
      rw [Nat.mul_succ, List.range_add, List.map_append, ih, List.range_succ,
        List.flatMap_append, List.flatMap_cons, List.flatMap_nil,
        List.append_nil]
      congr 1
      rw [List.map_map]
      apply List.map_congr_left
      intro i hi
      have hiW : i < W := List.mem_range.mp hi
      have hmod : (W * H + i) % W = i := by
        rw [Nat.add_comm, Nat.add_mul_mod_self_left]
        exact Nat.mod_eq_of_lt hiW
      have hdiv : (W * H + i) / W = H := by
        rw [Nat.mul_add_div hW, Nat.div_eq_of_lt hiW, Nat.add_zero]
      simp [Function.comp, hmod, hdiv]

/-- C7: for every view rectangle with positive width and height, iterating
from begin visits exactly w*h elements in row-major order (row y left to
right, then row y+1, and so on); the iterator reaches the end position
exactly at step w*h and at no earlier step; and the concrete region
(x=2, y=1, w=3, h=2) visits exactly (2,1), (3,1), (4,1), (2,2), (3,2),
(4,2).  Restartability holds because begin and the increment are pure
functions of the stored bounds. -/
theorem C7_iteration_row_major :
    (∀ b : Rect, 0 < b.w → 0 < b.h →
      ImageBits.visited b = rowMajor b
      ∧ (ImageBits.visited b).length = b.w.toNat * b.h.toNat
      ∧ ImageBits.iterN b (b.w.toNat * b.h.toNat) = ImageBits.endPos b
      ∧ (∀ k < b.w.toNat * b.h.toNat, ImageBits.iterN b k ≠ ImageBits.endPos b))
    ∧ ImageBits.visited ⟨2, 1, 3, 2⟩ =
        [⟨2, 1⟩, ⟨3, 1⟩, ⟨4, 1⟩, ⟨2, 2⟩, ⟨3, 2⟩, ⟨4, 2⟩] := by
  constructor
  · intro b hw hh
    have hW : 0 < b.w.toNat := by omega
    have hend : ImageBits.endPos b = ⟨b.x, b.y + b.h⟩ := by
      simp only [ImageBits.endPos, ImageIterator.inc]
      rw [if_neg (by omega)]
      refine IterPos.ext ?_ ?_
      all_goals dsimp only
      all_goals omega
    refine ⟨?_, by simp [ImageBits.visited], ?_, ?_⟩
    · unfold ImageBits.visited rowMajor
      rw [← range_mul_map_eq_rowMajor b.x b.y b.w.toNat b.h.toNat hW]
      exact List.map_congr_left (fun k _ => ImageBits.iterN_formula b hw k)
    · rw [ImageBits.iterN_formula b hw, hend]
      rw [Nat.mul_mod_right, Nat.mul_div_cancel_left _ hW]
      refine IterPos.ext ?_ ?_
      all_goals dsimp only
      all_goals omega
    · intro k hk
      rw [ImageBits.iterN_formula b hw, hend]
      have hlt : k / b.w.toNat < b.h.toNat := Nat.div_lt_of_lt_mul hk
      intro hcontra
      have hy : b.y + ((k / b.w.toNat : Nat) : Int) = b.y + b.h :=
        congrArg IterPos.y hcontra
      set q : Nat := k / b.w.toNat with hq
      omega
  · decide

/-- Witness for C7 at the concrete region of the claim. -/
theorem C7_iteration_row_major_witness :
    ImageBits.visited ⟨2, 1, 3, 2⟩ = rowMajor ⟨2, 1, 3, 2⟩ :=
  (C7_iteration_row_major.1 ⟨2, 1, 3, 2⟩ (by decide) (by decide)).1

/-- C6: constructing a view fails with a bounds error exactly when the
requested region is not fully contained in the image extents (negative
origin in x or y, or origin plus width past the image width, or origin
plus height past the image height); and every position visited by a
successfully constructed view lies strictly inside the image extents, so
no iterator addressing an element outside the buffer is ever produced. -/
theorem C6_bounds_error_iff :
    (∀ (img : ImageExtents) (b : Rect),
      (∃ e, ImageBits.make img b = .error e) ↔
        (b.x < 0 ∨ b.y < 0 ∨ img.width < b.x + b.w ∨ img.height < b.y + b.h))
    ∧ (∀ (img : ImageExtents) (b : Rect) (v : ImageBits),
      ImageBits.make img b = .ok v →
      ∀ p ∈ ImageBits.visited v.m_bounds,
        0 ≤ p.x ∧ p.x < img.width ∧ 0 ≤ p.y ∧ p.y < img.height) := by
  constructor
  · intro img b
    unfold ImageBits.make boundsContained
    constructor
    · intro ⟨e, he⟩
      by_contra hcon
      push_neg at hcon
      rw [if_pos (by simp; omega)] at he
      exact Except.noConfusion he
    · intro hbad
      rw [if_neg (by simp; omega)]
      exact ⟨"region out of image bounds", rfl⟩
  · intro img b v hok p hp
    unfold ImageBits.make at hok
    by_cases hc : boundsContained img b = true
    · rw [if_pos hc] at hok
      injection hok with hv
      subst hv
      unfold boundsContained at hc
      simp only [Bool.and_eq_true, decide_eq_true_eq] at hc
      obtain ⟨⟨⟨hx0, hxw⟩, hy0⟩, hyh⟩ := hc
      dsimp only at hp
      simp only [ImageBits.visited, List.mem_map, List.mem_range] at hp
      obtain ⟨k, hk, rfl⟩ := hp
      have hWH : 0 < b.w.toNat * b.h.toNat := Nat.lt_of_le_of_lt (Nat.zero_le k) hk
      have hWn : 0 < b.w.toNat := by
        rcases Nat.eq_zero_or_pos b.w.toNat with h0 | h0
        · rw [h0, Nat.zero_mul] at hWH; exact absurd hWH (lt_irrefl 0)
        · exact h0
      have hHn : 0 < b.h.toNat := by
        rcases Nat.eq_zero_or_pos b.h.toNat with h0 | h0
        · rw [h0, Nat.mul_zero] at hWH; exact absurd hWH (lt_irrefl 0)
        · exact h0
      have hw : 0 < b.w := by omega
      rw [ImageBits.iterN_formula b hw k]
      have hmodlt : k % b.w.toNat < b.w.toNat := Nat.mod_lt _ hWn
      have hdivlt : k / b.w.toNat < b.h.toNat := Nat.div_lt_of_lt_mul hk
      dsimp only
      generalize hgr : k % b.w.toNat = r at hmodlt ⊢
      generalize hgq : k / b.w.toNat = q at hdivlt ⊢
      omega
    · rw [if_neg hc] at hok
      exact Except.noConfusion hok

/-- Witness for C6: a region with negative origin is rejected, and the
positions visited through a successfully constructed view on a 5 by 3
image are inside the image. -/
theorem C6_bounds_error_iff_witness :
    (∃ e, ImageBits.make ⟨5, 3⟩ ⟨-1, 0, 2, 2⟩ = .error e)
    ∧ (∀ p ∈ ImageBits.visited (⟨2, 1, 3, 2⟩ : Rect),
        0 ≤ p.x ∧ p.x < 5 ∧ 0 ≤ p.y ∧ p.y < 3) :=
  ⟨(C6_bounds_error_iff.1 ⟨5, 3⟩ ⟨-1, 0, 2, 2⟩).mpr (by decide),
   C6_bounds_error_iff.2 ⟨5, 3⟩ ⟨2, 1, 3, 2⟩ ⟨some ⟨5, 3⟩, ⟨2, 1, 3, 2⟩⟩ rfl⟩

/-- C8 counterexample: on a view over a 5 by 3 image, the first unlock
forwards the release and clears the image pointer, and the second unlock
is a silent no-op: it changes nothing, forwards nothing, and no assertion
exists in ImageBits::unlock to detect it.  This contradicts the claim that
a double unlock is detected as a precondition violation and is never a
silent success. -/
theorem C8_double_unlock_counterexample :
    (ImageBits.unlock ⟨some ⟨5, 3⟩, ⟨0, 0, 2, 2⟩⟩).2 = true
    ∧ ImageBits.unlock (ImageBits.unlock ⟨some ⟨5, 3⟩, ⟨0, 0, 2, 2⟩⟩).1 =
        ((ImageBits.unlock ⟨some ⟨5, 3⟩, ⟨0, 0, 2, 2⟩⟩).1, false) := by
  decide

/-- C8 amended: ImageBits::unlock is idempotent by an explicit null check,
not by an assertion: for every view, a second unlock leaves the view
unchanged and forwards no release to the image (a checked silent no-op).
After the first unlock the view no longer references the image. -/
theorem C8_double_unlock_noop (b : ImageBits) :
    ImageBits.unlock (ImageBits.unlock b).1 = ((ImageBits.unlock b).1, false)
    ∧ ((ImageBits.unlock b).1).m_image = none := by
  obtain ⟨img, bounds⟩ := b
  cases img <;> simp [ImageBits.unlock]

/-!
Document duplication (Document::duplicate, Document::copyLayerContent in
src/app/document.cpp) and document teardown (Document::~Document).  The
collaborator classes Sprite, Layer, Cel, Image, Mask, Palette and
gfx::Transformation live in raster/ and gfx/ headers outside the given
sources; their state is modelled from the spec (layer tree as
Leaf(ImageLayer) | Branch(FolderLayer, children); raster buffers with
extents and per-element content; palettes and frame durations as plain
value lists).  Buffer identity is made explicit through an allocation
heap: an image id is an index into the list of allocations, and
Image::createCopy allocates a fresh id, so sharing and independence of
pixel buffers are provable facts rather than conventions.
-/

/-- Pixel content of one raster image (format, extents, elements).
Modelled from the spec: the raster buffer collaborator exposes extents and
element addressing. -/
structure ImageData where
  format : Nat
  width : Int
  height : Int
  pixels : List Nat
deriving DecidableEq, Repr

/-- Allocation heap of images: an image identity (pointer) is an index
into the allocation list, and allocation appends. -/
@[ext]
structure ImageHeap where
  images : List ImageData
deriving DecidableEq, Repr

/-- Allocate a fresh image; returns the new heap and the new id. -/
def ImageHeap.alloc (H : ImageHeap) (d : ImageData) : ImageHeap × Nat :=
  (⟨H.images ++ [d]⟩, H.images.length)

/-- Pixel data stored at an image id. -/
def ImageHeap.dataAt (H : ImageHeap) (id : Nat) : ImageData :=
  H.images.getD id ⟨0, 0, 0, []⟩

/-- Overwrite the pixel data stored at an image id (a mutation performed
through some holder of that buffer). -/
def ImageHeap.writeAt (H : ImageHeap) (id : Nat) (d : ImageData) : ImageHeap :=
  ⟨H.images.set id d⟩

/-- Image::createCopy: a fresh image with the same pixel data as the
source image.  Modelled from the spec: deep copy with a new identity. -/
def Image.createCopy (H : ImageHeap) (srcId : Nat) : ImageHeap × Nat :=
  H.alloc (H.dataAt srcId)

/-- Cel: frame number, position, opacity, and the index of its image in
the owning sprite stock.  Modelled from the spec (raster/cel.h is outside
the given sources); the copy constructor Cel(*sourceCel) copies every
field and setImage replaces the image index. -/
structure Cel where
  frame : Int
  x : Int
  y : Int
  opacity : Int
  imageIndex : Nat
deriving DecidableEq, Repr

/-- Layer tree.  Modelled from the spec: Leaf(ImageLayer with cels) |
Branch(FolderLayer with children); each layer carries a name. -/
inductive Layer where
  | image (name : String) (cels : List Cel)
  | folder (name : String) (children : List Layer)
deriving Repr

/-- Sprite: pixel format, canvas extents, frame count, per-frame
durations, palettes, the image stock (list of image ids owned by this
sprite) and the root layer folder.  Modelled from the spec
(raster/sprite.h is outside the given sources). -/
structure Sprite where
  pixelFormat : Nat
  width : Int
  height : Int
  totalFrames : Nat
  durations : List Nat
  palettes : List (List Nat)
  stock : List Nat
  root : Layer
deriving Repr

/-- Sprite constructor new Sprite(format, w, h, ncolors).  Modelled from
the spec: a fresh sprite with one frame, default frame duration, no
palettes installed yet, an empty stock and an empty root folder. -/
def Sprite.create (format : Nat) (w h : Int) (_ncolors : Nat) : Sprite :=
  { pixelFormat := format
    width := w
    height := h
    totalFrames := 1
    durations := [100]
    palettes := []
    stock := []
    root := .folder "" [] }

/-- Sprite::setTotalFrames.  Modelled from the spec: fixes the frame count
and resizes the duration table to it, padding with the default
duration. -/
def Sprite.setTotalFrames (s : Sprite) (n : Nat) : Sprite :=
  { s with totalFrames := n,
           durations := s.durations.take n ++
             List.replicate (n - s.durations.length) 100 }

/-- Sprite::getFrameDuration.  Modelled from the spec. -/
def Sprite.getFrameDuration (s : Sprite) (i : Nat) : Nat :=
  s.durations.getD i 100

/-- Sprite::setFrameDuration.  Modelled from the spec. -/
def Sprite.setFrameDuration (s : Sprite) (i : Nat) (d : Nat) : Sprite :=
  { s with durations := s.durations.set i d }

/-- Sprite::setPalette(pal, true).  Modelled from the spec: installs a
deep copy of the given palette in the sprite palette list. -/
def Sprite.setPalette (s : Sprite) (pal : List Nat) : Sprite :=
  { s with palettes := s.palettes ++ [pal] }

/-- Stock::addImage: appends an image id to the sprite stock and returns
its index.  Modelled from the spec. -/
def Stock.addImage (stock : List Nat) (id : Nat) : List Nat × Nat :=
  (stock ++ [id], stock.length)

/-- Selection mask: bounds and bitmap.  Modelled from the spec
(raster/mask.h is outside the given sources); Mask(*other) copies by
value. -/
structure Mask where
  bounds : Rect
  bitmap : List Bool
deriving DecidableEq, Repr

/-- Transformation state of the active selection (gfx::Transformation is
outside the given sources).  Modelled from the spec: a bounds rectangle
plus a rotation angle; the constructor from a rectangle gives a rotation
of zero. -/
structure Transform where
  bounds : Rect
  angle : Int
deriving DecidableEq, Repr

/-- gfx::Transformation(bounds): transformation with the given bounds and
no rotation. -/
def Transform.ofRect (r : Rect) : Transform := ⟨r, 0⟩

/-- Default-constructed gfx::Transformation(). -/
def Transform.initial : Transform := ⟨⟨0, 0, 0, 0⟩, 0⟩

/-- app::Document state used by the claims: the sprite, the access gate
(m_read_locks, m_write_lock), the selection mask and its visibility flag,
the transformation, the associated-to-file flag, the owning context
pointer and the filename.  The cached selection-boundary segments and the
extra cel are scratch state recomputed on demand and are not touched by
any claim, so they are left out of the state. -/
structure AppDocument where
  sprite : Sprite
  gate : Gate
  mask : Mask
  maskVisible : Bool
  transformation : Transform
  associated_to_file : Bool
  context : Option Nat
  filename : String
deriving Repr

namespace Document

/-- Document constructor (document.cpp lines 51-74): fresh gate
(m_write_lock = false, m_read_locks = 0), not associated to a file, a new
empty mask, mask visible, filename "Sprite", no context, and the given
sprite added to the document. -/
def create (sprite : Sprite) : AppDocument :=
  { sprite := sprite
    gate := Gate.fresh
    mask := ⟨⟨0, 0, 0, 0⟩, []⟩
    maskVisible := true
    transformation := Transform.initial
    associated_to_file := false
    context := none
    filename := "Sprite" }

/-- Document::resetTransformation (document.cpp lines 292-298): the mask
member always exists, so the transformation is rebuilt from the mask
bounds. -/
def resetTransformation (d : AppDocument) : AppDocument :=
  { d with transformation := Transform.ofRect d.mask.bounds }

/-- Document::setMask (document.cpp lines 258-264): installs a value copy
of the given mask, makes the mask visible and resets the
transformation. -/
def setMask (d : AppDocument) (m : Mask) : AppDocument :=
  resetTransformation { d with mask := m, maskVisible := true }

/-- Cel-copy loop of Document::copyLayerContent (document.cpp lines
312-328): for each source cel, build a copy of the cel, deep-copy its
image (resolved through the source sprite stock), add the fresh image to
the destination sprite stock, point the new cel at the returned stock
index, and add the new cel to the destination layer. -/
def copyCels (srcStock : List Nat) :
    List Cel → ImageHeap → List Nat → List Cel × List Nat × ImageHeap
  | [], H, destStock => ([], destStock, H)
  | c :: cs, H, destStock =>
      let srcImageId := srcStock.getD c.imageIndex 0
      let copied := Image.createCopy H srcImageId
      let added := Stock.addImage destStock copied.2
      let newCel : Cel := { c with imageIndex := added.2 }
      let rest := copyCels srcStock cs copied.1 added.1
      (newCel :: rest.1, rest.2.1, rest.2.2)

mutual

/-- Document::copyLayerContent (document.cpp lines 303-369): copies the
layer name; for an image layer copies every cel with a deep-copied image;
for a folder recurses over the children in order, appending each copied
child.  The destination layer starts empty (it is freshly created by the
caller), so the function is modelled as returning the fully built
destination layer together with the grown destination stock and heap. -/
def copyLayerContent (srcStock : List Nat) :
    Layer → ImageHeap → List Nat → Layer × List Nat × ImageHeap
  | .image name cels, H, destStock =>
      let r := copyCels srcStock cels H destStock
      (.image name r.1, r.2.1, r.2.2)
  | .folder name children, H, destStock =>
      let r := copyLayerList srcStock children H destStock
      (.folder name r.1, r.2.1, r.2.2)

/-- Child loop of Document::copyLayerContent over a folder's layer list
(document.cpp lines 334-364). -/
def copyLayerList (srcStock : List Nat) :
    List Layer → ImageHeap → List Nat → List Layer × List Nat × ImageHeap
  | [], H, destStock => ([], destStock, H)
  | l :: ls, H, destStock =>
      let r1 := copyLayerContent srcStock l H destStock
      let r2 := copyLayerList srcStock ls r1.2.2 r1.2.1
      (r1.1 :: r2.1, r2.2.1, r2.2.2)

end

/-- Frame-duration copy loop of Document::duplicate (document.cpp lines
385-387): for i in [0, totalFrames) set the destination frame duration to
the source frame duration.  The counter argument is the index one past the
last frame copied so far. -/
def copyDurationsUpTo (src : Sprite) : Nat → Sprite → Sprite
  | 0, dst => dst
  | n + 1, dst =>
      (copyDurationsUpTo src n dst).setFrameDuration n (src.getFrameDuration n)

/-- Palette copy loop of Document::duplicate (document.cpp lines
389-397): installs each source palette in the destination sprite. -/
def copyPalettes (src : Sprite) (dst : Sprite) : Sprite :=
  src.palettes.foldl (fun sp pal => sp.setPalette pal) dst

/-- Document::duplicate with DuplicateExactCopy (document.cpp lines
371-433): creates a fresh sprite with the source format, extents and
first-palette size; copies the frame count, the frame durations and the
palettes; deep-copies the whole layer folder through copyLayerContent;
builds a fresh document around the copied sprite; copies the mask by value
(setMask, which also resets the transformation from the copied mask
bounds) and the mask-visibility flag.  generateMaskBoundaries only
recomputes the cached boundary segments, which are not part of the
modelled state. -/
def duplicateExactCopy (d : AppDocument) (H : ImageHeap) :
    AppDocument × ImageHeap :=
  let sourceSprite := d.sprite
  let s0 := Sprite.create sourceSprite.pixelFormat sourceSprite.width
      sourceSprite.height (sourceSprite.palettes.getD 0 []).length
  let s1 := s0.setTotalFrames sourceSprite.totalFrames
  let s2 := copyDurationsUpTo sourceSprite sourceSprite.totalFrames s1
  let s3 := copyPalettes sourceSprite s2
  let r := copyLayerContent sourceSprite.stock sourceSprite.root H s3.stock
  let s4 := { s3 with root := r.1, stock := r.2.1 }
  let d0 := create s4
  let d1 := setMask d0 d.mask
  let d2 := { d1 with maskVisible := d.maskVisible }
  (d2, r.2.2)

end Document

/-- Value view of a cel: the cel fields with the image resolved to its
pixel data through the owning sprite stock and the heap. -/
structure CelData where
  frame : Int
  x : Int
  y : Int
  opacity : Int
  data : ImageData
deriving DecidableEq, Repr

/-- Value view of a layer tree: every cel image replaced by its pixel
data.  Two sprites whose trees resolve to the same LayerData agree on
names, structure, cel fields and every pixel, independently of buffer
identities. -/
inductive LayerData where
  | image (name : String) (cels : List CelData)
  | folder (name : String) (children : List LayerData)
deriving Repr

/-- Resolve a cel to its value view. -/
def Cel.resolve (stock : List Nat) (H : ImageHeap) (c : Cel) : CelData :=
  ⟨c.frame, c.x, c.y, c.opacity, H.dataAt (stock.getD c.imageIndex 0)⟩

mutual

/-- Resolve a layer tree to its value view. -/
def Layer.resolve (stock : List Nat) (H : ImageHeap) : Layer → LayerData
  | .image name cels => .image name (cels.map (Cel.resolve stock H))
  | .folder name children => .folder name (Layer.resolveList stock H children)

/-- Resolve a list of layers to value views. -/
def Layer.resolveList (stock : List Nat) (H : ImageHeap) :
    List Layer → List LayerData
  | [] => []
  | l :: ls => Layer.resolve stock H l :: Layer.resolveList stock H ls

end

mutual

/-- Every cel of the layer tree references a stock index below n. -/
def Layer.celsBounded (n : Nat) : Layer → Bool
  | .image _ cels => cels.all (fun c => decide (c.imageIndex < n))
  | .folder _ children => Layer.listCelsBounded n children

/-- Every cel of each layer in the list references a stock index below
n. -/
def Layer.listCelsBounded (n : Nat) : List Layer → Bool
  | [] => true
  | l :: ls => Layer.celsBounded n l && Layer.listCelsBounded n ls

end

mutual

/-- Number of image layers in a resolved layer tree. -/
def LayerData.count : LayerData → Nat
  | .image _ _ => 1
  | .folder _ children => LayerData.countList children

/-- Number of image layers in a list of resolved layers. -/
def LayerData.countList : List LayerData → Nat
  | [] => 0
  | l :: ls => LayerData.count l + LayerData.countList ls

end

namespace Document

/-- Checks performed by the destructor Document::~Document (document.cpp
lines 76-89): the only assertion is ASSERT(context() == NULL); the body
then frees the cached boundary segments and the extra cel.  The gate state
m_read_locks / m_write_lock is not examined. -/
def destructorAssertOk (d : AppDocument) : Bool :=
  d.context.isNone

end Document

/-- Reading below the length of the original heap is unaffected by
appended allocations. -/
theorem ImageHeap.dataAt_append (H : ImageHeap) (ext : List ImageData) (id : Nat)
    (h : id < H.images.length) :
    ImageHeap.dataAt ⟨H.images ++ ext⟩ id = H.dataAt id := by
  unfold ImageHeap.dataAt
  exact List.getD_append _ _ _ _ h

/-- Reading below the length of the original stock is unaffected by
appended ids. -/
theorem stock_getD_append (stock ext : List Nat) (i : Nat) (h : i < stock.length) :
    (stock ++ ext).getD i 0 = stock.getD i 0 :=
  List.getD_append _ _ _ _ h

/-- In-range stock entries are members of the stock. -/
theorem stock_getD_mem (stock : List Nat) (i : Nat) (h : i < stock.length) :
    stock.getD i 0 ∈ stock := by
  rw [List.getD_eq_getElem _ _ h]
  exact List.getElem_mem _

/-- Cel resolution depends only on the stock entry at the cel index and
the heap data stored there. -/
theorem Cel.resolve_agree (stock1 stock2 : List Nat) (H1 H2 : ImageHeap) (c : Cel)
    (hstk : stock2.getD c.imageIndex 0 = stock1.getD c.imageIndex 0)
    (hdat : H2.dataAt (stock1.getD c.imageIndex 0) =
      H1.dataAt (stock1.getD c.imageIndex 0)) :
    Cel.resolve stock2 H2 c = Cel.resolve stock1 H1 c := by
  unfold Cel.resolve
  rw [hstk, hdat]

mutual

/-- Layer resolution depends only on the stock entries below the bound of
the tree and the heap data they reference. -/
theorem Layer.resolve_congr (stock1 stock2 : List Nat) (H1 H2 : ImageHeap)
    (l : Layer) (hb : Layer.celsBounded stock1.length l = true)
    (hagree : ∀ i < stock1.length, stock2.getD i 0 = stock1.getD i 0 ∧
        H2.dataAt (stock1.getD i 0) = H1.dataAt (stock1.getD i 0)) :
    Layer.resolve stock2 H2 l = Layer.resolve stock1 H1 l := by
  cases l with
  | image name cels =>
      unfold Layer.resolve
      congr 1
      apply List.map_congr_left
      intro c hc
      have hcb : c.imageIndex < stock1.length := by
        have hall : ∀ x ∈ cels, x.imageIndex < stock1.length := by
          simpa [Layer.celsBounded] using hb
        exact hall c hc
      exact Cel.resolve_agree stock1 stock2 H1 H2 c (hagree _ hcb).1 (hagree _ hcb).2
  | folder name children =>
      unfold Layer.resolve
      congr 1
      exact Layer.resolveList_congr stock1 stock2 H1 H2 children
        (by simpa [Layer.celsBounded] using hb) hagree

/-- List version of Layer.resolve_congr. -/
theorem Layer.resolveList_congr (stock1 stock2 : List Nat) (H1 H2 : ImageHeap)
    (ls : List Layer) (hb : Layer.listCelsBounded stock1.length ls = true)
    (hagree : ∀ i < stock1.length, stock2.getD i 0 = stock1.getD i 0 ∧
        H2.dataAt (stock1.getD i 0) = H1.dataAt (stock1.getD i 0)) :
    Layer.resolveList stock2 H2 ls = Layer.resolveList stock1 H1 ls := by
  cases ls with
  | nil => rfl
  | cons l ls =>
      unfold Layer.resolveList
      have hb2 : Layer.celsBounded stock1.length l = true ∧
          Layer.listCelsBounded stock1.length ls = true := by
        simpa [Layer.listCelsBounded, Bool.and_eq_true] using hb
      rw [Layer.resolve_congr stock1 stock2 H1 H2 l hb2.1 hagree,
        Layer.resolveList_congr stock1 stock2 H1 H2 ls hb2.2 hagree]

end

mutual

/-- Cel-index bounds are monotone in the bound. -/
theorem Layer.celsBounded_mono (m n : Nat) (l : Layer) (hmn : m ≤ n)
    (h : Layer.celsBounded m l = true) : Layer.celsBounded n l = true := by
  cases l with
  | image name cels =>
      simp only [Layer.celsBounded, List.all_eq_true] at h ⊢
      intro c hc
      have := h c hc
      simp only [decide_eq_true_eq] at this ⊢
      omega
  | folder name children =>
      simp only [Layer.celsBounded] at h ⊢
      exact Layer.listCelsBounded_mono m n children hmn h

/-- List version of Layer.celsBounded_mono. -/
theorem Layer.listCelsBounded_mono (m n : Nat) (ls : List Layer) (hmn : m ≤ n)
    (h : Layer.listCelsBounded m ls = true) :
    Layer.listCelsBounded n ls = true := by
  cases ls with
  | nil => rfl
  | cons l ls =>
      simp only [Layer.listCelsBounded, Bool.and_eq_true] at h ⊢
      exact ⟨Layer.celsBounded_mono m n l hmn h.1,
        Layer.listCelsBounded_mono m n ls hmn h.2⟩

end

/-- One boundary read: the element just appended sits at the old
length. -/
theorem list_getD_append_self (l : List Nat) (a : Nat) :
    (l ++ [a]).getD l.length 0 = a := by
  rw [List.getD_append_right _ _ _ _ (Nat.le_refl _), Nat.sub_self]
  rfl

/-- Heap variant of the boundary read. -/
theorem ImageHeap.dataAt_append_self (H : ImageHeap) (d : ImageData) :
    ImageHeap.dataAt ⟨H.images ++ [d]⟩ H.images.length = d := by
  unfold ImageHeap.dataAt
  rw [List.getD_append_right _ _ _ _ (Nat.le_refl _), Nat.sub_self]
  rfl

/-- Behaviour of the cel-copy loop of copyLayerContent: the heap only
grows by appended fresh images; the destination stock grows by appended
ids that all point at or above the original heap top; the grown stock
stays inside the grown heap; the copied cels reference in-range
destination stock indices; and the copied cels resolve to exactly the
same values as the source cels did before the copy. -/
theorem copyCels_spec (srcStock : List Nat) (cels : List Cel) :
    ∀ (H : ImageHeap) (destStock : List Nat),
    (∀ id ∈ srcStock, id < H.images.length) →
    (∀ id ∈ destStock, id < H.images.length) →
    cels.all (fun c => decide (c.imageIndex < srcStock.length)) = true →
    (∃ ext, (Document.copyCels srcStock cels H destStock).2.2.images =
        H.images ++ ext)
    ∧ (∃ newIds, (Document.copyCels srcStock cels H destStock).2.1 =
          destStock ++ newIds
        ∧ ∀ id ∈ newIds, H.images.length ≤ id)
    ∧ (∀ id ∈ (Document.copyCels srcStock cels H destStock).2.1,
        id < (Document.copyCels srcStock cels H destStock).2.2.images.length)
    ∧ ((Document.copyCels srcStock cels H destStock).1.all
        (fun c => decide (c.imageIndex <
          (Document.copyCels srcStock cels H destStock).2.1.length)) = true)
    ∧ ((Document.copyCels srcStock cels H destStock).1.map
          (Cel.resolve (Document.copyCels srcStock cels H destStock).2.1
            (Document.copyCels srcStock cels H destStock).2.2)
        = cels.map (Cel.resolve srcStock H)) := by
  induction cels with
  | nil =>
      intro H destStock hsrc hdst _
      refine ⟨⟨[], by simp [Document.copyCels]⟩,
        ⟨[], by simp [Document.copyCels]⟩, ?_,
        by simp [Document.copyCels], by simp [Document.copyCels]⟩
      simpa [Document.copyCels] using hdst
  | cons c cs ih =>
      intro H destStock hsrc hdst hball
      have hball2 : (c.imageIndex < srcStock.length) ∧
          cs.all (fun c => decide (c.imageIndex < srcStock.length)) = true := by
        simpa [List.all_cons] using hball
      set d : ImageData := H.dataAt (srcStock.getD c.imageIndex 0) with hd
      set H1 : ImageHeap := ⟨H.images ++ [d]⟩ with hH1
      set dst1 : List Nat := destStock ++ [H.images.length] with hdst1def
      have hH1len : H1.images.length = H.images.length + 1 := by
        rw [hH1]; simp
      have heq : Document.copyCels srcStock (c :: cs) H destStock =
          ({ c with imageIndex := destStock.length } ::
              (Document.copyCels srcStock cs H1 dst1).1,
            (Document.copyCels srcStock cs H1 dst1).2.1,
            (Document.copyCels srcStock cs H1 dst1).2.2) := by
        conv_lhs => rw [Document.copyCels]
        rw [hH1, hdst1def, hd]
        simp [Image.createCopy, Stock.addImage, ImageHeap.alloc]
      have hsrc1 : ∀ id ∈ srcStock, id < H1.images.length := by
        intro id hid
        have := hsrc id hid
        omega
      have hdst1mem : ∀ id ∈ dst1, id < H1.images.length := by
        intro id hid
        rw [hdst1def] at hid
        rcases List.mem_append.mp hid with h | h
        · have := hdst id h; omega
        · have : id = H.images.length := by simpa using h
          omega
      obtain ⟨⟨ext1, hext1⟩, ⟨new1, hnew1, hnewge1⟩, hrange1, hbound1, hmap1⟩ :=
        ih H1 dst1 hsrc1 hdst1mem hball2.2
      rw [heq]
      refine ⟨?_, ?_, ?_, ?_, ?_⟩
      · exact ⟨d :: ext1, by rw [hext1, hH1]; simp⟩
      · refine ⟨H.images.length :: new1, ?_, ?_⟩
        · rw [hnew1, hdst1def]; simp
        · intro id hid
          rcases List.mem_cons.mp hid with h | h
          · omega
          · have := hnewge1 id h; omega
      · exact hrange1
      · rw [List.all_cons]
        refine (Bool.and_eq_true _ _).mpr ⟨?_, hbound1⟩
        have hlen : dst1.length ≤
            (Document.copyCels srcStock cs H1 dst1).2.1.length := by
          rw [hnew1]; simp
        have hdlen : destStock.length < dst1.length := by
          rw [hdst1def]; simp
        simp only [decide_eq_true_eq]
        omega
      · rw [List.map_cons, List.map_cons, hmap1]
        congr 1
        · unfold Cel.resolve
          have hidx : ({ c with imageIndex := destStock.length } : Cel).imageIndex =
              destStock.length := rfl
          rw [hidx]
          have hstk : (Document.copyCels srcStock cs H1 dst1).2.1.getD
              destStock.length 0 = H.images.length := by
            rw [hnew1]
            have hklt : destStock.length < dst1.length := by
              rw [hdst1def]; simp
            rw [List.getD_append _ _ _ _ hklt, hdst1def, list_getD_append_self]
          rw [hstk]
          have hheap : (Document.copyCels srcStock cs H1 dst1).2.2 =
              (⟨H1.images ++ ext1⟩ : ImageHeap) := ImageHeap.ext hext1
          rw [hheap]
          rw [ImageHeap.dataAt_append H1 ext1 _ (by omega)]
          rw [hH1, ImageHeap.dataAt_append_self]
        · apply List.map_congr_left
          intro c2 hc2
          have hc2b : c2.imageIndex < srcStock.length := by
            have hall : ∀ x ∈ cs, x.imageIndex < srcStock.length := by
              simpa using hball2.2
            exact hall c2 hc2
          apply Cel.resolve_agree srcStock srcStock H H1 c2 rfl
          have hmem := stock_getD_mem srcStock c2.imageIndex hc2b
          have hlt := hsrc _ hmem
          rw [hH1]
          exact ImageHeap.dataAt_append H [d] _ hlt

mutual

/-- Behaviour of Document::copyLayerContent: the heap only grows by
appended fresh images; the destination stock grows by appended ids at or
above the original heap top; the grown stock stays inside the grown heap;
the copied layer references in-range destination stock indices; and the
copied layer resolves to exactly the same value view as the source
layer. -/
theorem copyLayerContent_spec (srcStock : List Nat) (l : Layer)
    (H : ImageHeap) (destStock : List Nat)
    (hsrc : ∀ id ∈ srcStock, id < H.images.length)
    (hdst : ∀ id ∈ destStock, id < H.images.length)
    (hb : Layer.celsBounded srcStock.length l = true) :
    (∃ ext, (Document.copyLayerContent srcStock l H destStock).2.2.images =
        H.images ++ ext)
    ∧ (∃ newIds, (Document.copyLayerContent srcStock l H destStock).2.1 =
          destStock ++ newIds
        ∧ ∀ id ∈ newIds, H.images.length ≤ id)
    ∧ (∀ id ∈ (Document.copyLayerContent srcStock l H destStock).2.1,
        id < (Document.copyLayerContent srcStock l H destStock).2.2.images.length)
    ∧ Layer.celsBounded
        (Document.copyLayerContent srcStock l H destStock).2.1.length
        (Document.copyLayerContent srcStock l H destStock).1 = true
    ∧ Layer.resolve (Document.copyLayerContent srcStock l H destStock).2.1
        (Document.copyLayerContent srcStock l H destStock).2.2
        (Document.copyLayerContent srcStock l H destStock).1
      = Layer.resolve srcStock H l := by
  cases l with
  | image name cels =>
      obtain ⟨h1, h2, h3, h4, h5⟩ := copyCels_spec srcStock cels H destStock
        hsrc hdst (by simpa [Layer.celsBounded] using hb)
      have heq : Document.copyLayerContent srcStock (.image name cels) H destStock =
          (.image name (Document.copyCels srcStock cels H destStock).1,
            (Document.copyCels srcStock cels H destStock).2.1,
            (Document.copyCels srcStock cels H destStock).2.2) := by
        rw [Document.copyLayerContent]
      rw [heq]
      refine ⟨h1, h2, h3, ?_, ?_⟩
      · simpa [Layer.celsBounded] using h4
      · simp only [Layer.resolve]
        rw [h5]
  | folder name children =>
      obtain ⟨h1, h2, h3, h4, h5⟩ := copyLayerList_spec srcStock children H destStock
        hsrc hdst (by simpa [Layer.celsBounded] using hb)
      have heq : Document.copyLayerContent srcStock (.folder name children) H destStock =
          (.folder name (Document.copyLayerList srcStock children H destStock).1,
            (Document.copyLayerList srcStock children H destStock).2.1,
            (Document.copyLayerList srcStock children H destStock).2.2) := by
        rw [Document.copyLayerContent]
      rw [heq]
      refine ⟨h1, h2, h3, ?_, ?_⟩
      · simpa [Layer.celsBounded] using h4
      · simp only [Layer.resolve]
        rw [h5]

/-- Behaviour of the child loop of Document::copyLayerContent over a
folder's layer list. -/
theorem copyLayerList_spec (srcStock : List Nat) (ls : List Layer)
    (H : ImageHeap) (destStock : List Nat)
    (hsrc : ∀ id ∈ srcStock, id < H.images.length)
    (hdst : ∀ id ∈ destStock, id < H.images.length)
    (hb : Layer.listCelsBounded srcStock.length ls = true) :
    (∃ ext, (Document.copyLayerList srcStock ls H destStock).2.2.images =
        H.images ++ ext)
    ∧ (∃ newIds, (Document.copyLayerList srcStock ls H destStock).2.1 =
          destStock ++ newIds
        ∧ ∀ id ∈ newIds, H.images.length ≤ id)
    ∧ (∀ id ∈ (Document.copyLayerList srcStock ls H destStock).2.1,
        id < (Document.copyLayerList srcStock ls H destStock).2.2.images.length)
    ∧ Layer.listCelsBounded
        (Document.copyLayerList srcStock ls H destStock).2.1.length
        (Document.copyLayerList srcStock ls H destStock).1 = true
    ∧ Layer.resolveList (Document.copyLayerList srcStock ls H destStock).2.1
        (Document.copyLayerList srcStock ls H destStock).2.2
        (Document.copyLayerList srcStock ls H destStock).1
      = Layer.resolveList srcStock H ls := by
  cases ls with
  | nil =>
      have heq : Document.copyLayerList srcStock [] H destStock =
          ([], destStock, H) := by
        rw [Document.copyLayerList]
      rw [heq]
      exact ⟨⟨[], by simp⟩, ⟨[], by simp⟩, hdst, rfl, rfl⟩
  | cons l ls =>
      have hb2 : Layer.celsBounded srcStock.length l = true ∧
          Layer.listCelsBounded srcStock.length ls = true := by
        simpa [Layer.listCelsBounded, Bool.and_eq_true] using hb
      obtain ⟨⟨e1, he1⟩, ⟨n1, hn1, hge1⟩, hr1, hb1, hres1⟩ :=
        copyLayerContent_spec srcStock l H destStock hsrc hdst hb2.1
      have hlen1 : H.images.length ≤
          (Document.copyLayerContent srcStock l H destStock).2.2.images.length := by
        rw [he1]; simp
      have hsrc1 : ∀ id ∈ srcStock,
          id < (Document.copyLayerContent srcStock l H destStock).2.2.images.length := by
        intro id hid
        have := hsrc id hid
        omega
      obtain ⟨⟨e2, he2⟩, ⟨n2, hn2, hge2⟩, hr2, hbl2, hres2⟩ :=
        copyLayerList_spec srcStock ls
          (Document.copyLayerContent srcStock l H destStock).2.2
          (Document.copyLayerContent srcStock l H destStock).2.1
          hsrc1 hr1 hb2.2
      have heq : Document.copyLayerList srcStock (l :: ls) H destStock =
          ((Document.copyLayerContent srcStock l H destStock).1 ::
              (Document.copyLayerList srcStock ls
                (Document.copyLayerContent srcStock l H destStock).2.2
                (Document.copyLayerContent srcStock l H destStock).2.1).1,
            (Document.copyLayerList srcStock ls
                (Document.copyLayerContent srcStock l H destStock).2.2
                (Document.copyLayerContent srcStock l H destStock).2.1).2.1,
            (Document.copyLayerList srcStock ls
                (Document.copyLayerContent srcStock l H destStock).2.2
                (Document.copyLayerContent srcStock l H destStock).2.1).2.2) := by
        rw [Document.copyLayerList]
      rw [heq]
      refine ⟨?_, ?_, hr2, ?_, ?_⟩
      · exact ⟨e1 ++ e2, by rw [he2, he1]; simp⟩
      · refine ⟨n1 ++ n2, by rw [hn2, hn1]; simp, ?_⟩
        intro id hid
        rcases List.mem_append.mp hid with h | h
        · exact hge1 id h
        · have := hge2 id h
          omega
      · have hmono : (Document.copyLayerContent srcStock l H destStock).2.1.length ≤
            (Document.copyLayerList srcStock ls
              (Document.copyLayerContent srcStock l H destStock).2.2
              (Document.copyLayerContent srcStock l H destStock).2.1).2.1.length := by
          rw [hn2]; simp
        simp only [Layer.listCelsBounded, Bool.and_eq_true]
        exact ⟨Layer.celsBounded_mono _ _ _ hmono hb1, hbl2⟩
      · simp only [Layer.resolveList]
        congr 1
        · have hheap2 : (Document.copyLayerList srcStock ls
              (Document.copyLayerContent srcStock l H destStock).2.2
              (Document.copyLayerContent srcStock l H destStock).2.1).2.2 =
              (⟨(Document.copyLayerContent srcStock l H destStock).2.2.images ++ e2⟩ :
                ImageHeap) := ImageHeap.ext he2
          rw [hn2, hheap2]
          rw [Layer.resolve_congr
            (Document.copyLayerContent srcStock l H destStock).2.1
            ((Document.copyLayerContent srcStock l H destStock).2.1 ++ n2)
            (Document.copyLayerContent srcStock l H destStock).2.2
            (⟨(Document.copyLayerContent srcStock l H destStock).2.2.images ++ e2⟩ :
              ImageHeap)
            (Document.copyLayerContent srcStock l H destStock).1
            hb1 ?_]
          · exact hres1
          · intro i hi
            refine ⟨stock_getD_append _ _ _ hi, ?_⟩
            have hmem := stock_getD_mem _ _ hi
            have hlt := hr1 _ hmem
            exact ImageHeap.dataAt_append _ _ _ hlt
        · rw [hres2]
          have hheap1 : (Document.copyLayerContent srcStock l H destStock).2.2 =
              (⟨H.images ++ e1⟩ : ImageHeap) := ImageHeap.ext he1
          rw [hheap1]
          have hcongr := Layer.resolveList_congr srcStock srcStock H
            (⟨H.images ++ e1⟩ : ImageHeap) ls hb2.2 ?_
          · exact hcongr
          · intro i hi
            refine ⟨rfl, ?_⟩
            have hmem := stock_getD_mem _ _ hi
            have hlt := hsrc _ hmem
            exact ImageHeap.dataAt_append _ _ _ hlt

end

/-- setTotalFrames sizes the duration table to the frame count. -/
theorem Sprite.setTotalFrames_durations_length (s : Sprite) (n : Nat) :
    (s.setTotalFrames n).durations.length = n := by
  simp [Sprite.setTotalFrames]
  omega

/-- The duration-copy loop does not change the duration-table length. -/
theorem copyDurationsUpTo_durations_length (src : Sprite) (n : Nat) (dst : Sprite) :
    (Document.copyDurationsUpTo src n dst).durations.length =
      dst.durations.length := by
  induction n with
  | zero => rfl
  | succ n ih => simp [Document.copyDurationsUpTo, Sprite.setFrameDuration, ih]

/-- The duration-copy loop does not change the palettes. -/
theorem copyDurationsUpTo_palettes (src : Sprite) (n : Nat) (dst : Sprite) :
    (Document.copyDurationsUpTo src n dst).palettes = dst.palettes := by
  induction n with
  | zero => rfl
  | succ n ih => simp [Document.copyDurationsUpTo, Sprite.setFrameDuration, ih]

/-- The duration-copy loop does not change the stock. -/
theorem copyDurationsUpTo_stock (src : Sprite) (n : Nat) (dst : Sprite) :
    (Document.copyDurationsUpTo src n dst).stock = dst.stock := by
  induction n with
  | zero => rfl
  | succ n ih => simp [Document.copyDurationsUpTo, Sprite.setFrameDuration, ih]

/-- The duration-copy loop does not change the frame count. -/
theorem copyDurationsUpTo_totalFrames (src : Sprite) (n : Nat) (dst : Sprite) :
    (Document.copyDurationsUpTo src n dst).totalFrames = dst.totalFrames := by
  induction n with
  | zero => rfl
  | succ n ih => simp [Document.copyDurationsUpTo, Sprite.setFrameDuration, ih]

/-- Entry read after the duration-copy loop: frames below the counter hold
the source duration, the rest are untouched. -/
theorem copyDurationsUpTo_getD (src : Sprite) (n : Nat) (dst : Sprite) (j : Nat) :
    (Document.copyDurationsUpTo src n dst).durations.getD j 0 =
      if j < n ∧ j < dst.durations.length then src.getFrameDuration j
      else dst.durations.getD j 0 := by
  induction n with
  | zero => simp [Document.copyDurationsUpTo]
  | succ n ih =>
      rw [Document.copyDurationsUpTo]
      simp only [Sprite.setFrameDuration]
      by_cases hj : j < dst.durations.length
      · have hj' : j < ((Document.copyDurationsUpTo src n dst).durations.set n
            (src.getFrameDuration n)).length := by
          simp [copyDurationsUpTo_durations_length]
          omega
        rw [List.getD_eq_getElem _ _ hj']
        rw [List.getElem_set]
        by_cases hjn : n = j
        · subst hjn
          rw [if_pos rfl, if_pos ⟨Nat.lt_succ_self n, hj⟩]
        · rw [if_neg hjn]
          rw [← List.getD_eq_getElem _ 0
            (by rw [copyDurationsUpTo_durations_length]; exact hj)]
          rw [ih]
          by_cases hlt : j < n
          · rw [if_pos ⟨hlt, hj⟩, if_pos ⟨by omega, hj⟩]
          · rw [if_neg (by omega), if_neg (by omega)]
      · rw [List.getD_eq_default _ _
          (by simp [copyDurationsUpTo_durations_length]; omega)]
        rw [if_neg (by omega)]
        rw [List.getD_eq_default _ _ (by omega)]

/-- Running the duration-copy loop over all frames reproduces exactly the
source duration table. -/
theorem copyDurationsUpTo_full (src dst : Sprite)
    (hd : dst.durations.length = src.totalFrames)
    (hs : src.durations.length = src.totalFrames) :
    (Document.copyDurationsUpTo src src.totalFrames dst).durations =
      src.durations := by
  apply List.ext_getElem
  · rw [copyDurationsUpTo_durations_length, hd, hs]
  · intro i h1 h2
    have hlen := copyDurationsUpTo_durations_length src src.totalFrames dst
    have hi : i < src.totalFrames := by omega
    have hgd := copyDurationsUpTo_getD src src.totalFrames dst i
    rw [if_pos ⟨hi, by omega⟩] at hgd
    rw [List.getD_eq_getElem _ _ h1] at hgd
    rw [hgd]
    unfold Sprite.getFrameDuration
    rw [List.getD_eq_getElem _ _ h2]

/-- The palette-copy loop appends the source palettes and changes nothing
else. -/
theorem copyPalettes_fields (pals : List (List Nat)) :
    ∀ dst : Sprite,
    (pals.foldl (fun sp pal => sp.setPalette pal) dst).durations = dst.durations
    ∧ (pals.foldl (fun sp pal => sp.setPalette pal) dst).stock = dst.stock
    ∧ (pals.foldl (fun sp pal => sp.setPalette pal) dst).totalFrames =
        dst.totalFrames
    ∧ (pals.foldl (fun sp pal => sp.setPalette pal) dst).palettes =
        dst.palettes ++ pals := by
  induction pals with
  | nil => intro dst; simp
  | cons p ps ih =>
      intro dst
      simp only [List.foldl_cons]
      obtain ⟨h1, h2, h3, h4⟩ := ih (dst.setPalette p)
      refine ⟨by rw [h1]; rfl, by rw [h2]; rfl, by rw [h3]; rfl, ?_⟩
      rw [h4]
      show (dst.palettes ++ [p]) ++ ps = dst.palettes ++ (p :: ps)
      simp

/-- Writing at an id different from the one read leaves the read
unchanged. -/
theorem ImageHeap.dataAt_writeAt_ne (H : ImageHeap) (id j : Nat) (d : ImageData)
    (h : j ≠ id) : (H.writeAt id d).dataAt j = H.dataAt j := by
  unfold ImageHeap.writeAt ImageHeap.dataAt
  by_cases hj : j < H.images.length
  · rw [List.getD_eq_getElem _ _ (by simpa using hj),
      List.getD_eq_getElem _ _ hj]
    rw [List.getElem_set]
    rw [if_neg (fun hne => h hne.symm)]
  · rw [List.getD_eq_default _ _ (by simpa using Nat.le_of_not_lt hj),
      List.getD_eq_default _ _ (Nat.le_of_not_lt hj)]

/-- C9 amended: duplicate(ExactCopy) on a well-formed document yields a
copy whose layer tree resolves to exactly the same value view as the
source (same structure, names, cel fields and pixel data, hence the same
number of image layers), with equal frame count, frame durations,
palettes, selection mask and mask visibility; the gate of the copy is
fresh (no ticket of any kind); every buffer of the copy is a freshly
allocated id at or above the pre-copy heap top, so overwriting any buffer
of the copy leaves the value view of the source untouched.  The
transformation of the copy is not copied from the source: it is reset
from the copied mask bounds (see the counterexample). -/
theorem C9_duplicate_exact_copy (d : AppDocument) (H : ImageHeap)
    (hsrc : ∀ id ∈ d.sprite.stock, id < H.images.length)
    (hb : Layer.celsBounded d.sprite.stock.length d.sprite.root = true)
    (hdur : d.sprite.durations.length = d.sprite.totalFrames) :
    Layer.resolve (Document.duplicateExactCopy d H).1.sprite.stock
        (Document.duplicateExactCopy d H).2
        (Document.duplicateExactCopy d H).1.sprite.root
      = Layer.resolve d.sprite.stock H d.sprite.root
    ∧ LayerData.count
        (Layer.resolve (Document.duplicateExactCopy d H).1.sprite.stock
          (Document.duplicateExactCopy d H).2
          (Document.duplicateExactCopy d H).1.sprite.root)
      = LayerData.count (Layer.resolve d.sprite.stock H d.sprite.root)
    ∧ (Document.duplicateExactCopy d H).1.sprite.totalFrames =
        d.sprite.totalFrames
    ∧ (Document.duplicateExactCopy d H).1.sprite.durations =
        d.sprite.durations
    ∧ (Document.duplicateExactCopy d H).1.sprite.palettes = d.sprite.palettes
    ∧ (Document.duplicateExactCopy d H).1.mask = d.mask
    ∧ (Document.duplicateExactCopy d H).1.maskVisible = d.maskVisible
    ∧ (Document.duplicateExactCopy d H).1.transformation =
        Transform.ofRect d.mask.bounds
    ∧ (Document.duplicateExactCopy d H).1.gate = Gate.fresh
    ∧ (∀ id ∈ (Document.duplicateExactCopy d H).1.sprite.stock,
        H.images.length ≤ id)
    ∧ (∀ id, H.images.length ≤ id → ∀ data,
        Layer.resolve d.sprite.stock
            (((Document.duplicateExactCopy d H).2).writeAt id data)
            d.sprite.root
          = Layer.resolve d.sprite.stock H d.sprite.root) := by
  set s1 : Sprite := (Sprite.create d.sprite.pixelFormat d.sprite.width
      d.sprite.height (d.sprite.palettes.getD 0 []).length).setTotalFrames
      d.sprite.totalFrames with hs1
  set s2 : Sprite :=
      Document.copyDurationsUpTo d.sprite d.sprite.totalFrames s1 with hs2
  set s3 : Sprite := Document.copyPalettes d.sprite s2 with hs3
  set r := Document.copyLayerContent d.sprite.stock d.sprite.root H s3.stock
    with hrr
  have hcomp : Document.duplicateExactCopy d H =
      ({ sprite := { s3 with root := r.1, stock := r.2.1 }
         gate := Gate.fresh
         mask := d.mask
         maskVisible := d.maskVisible
         transformation := Transform.ofRect d.mask.bounds
         associated_to_file := false
         context := none
         filename := "Sprite" }, r.2.2) := by
    rw [hrr, hs3, hs2, hs1]
    rfl
  have hfold := copyPalettes_fields d.sprite.palettes s2
  have hfold' : s3.durations = s2.durations ∧ s3.stock = s2.stock
      ∧ s3.totalFrames = s2.totalFrames
      ∧ s3.palettes = s2.palettes ++ d.sprite.palettes := by
    rw [hs3]
    exact ⟨hfold.1, hfold.2.1, hfold.2.2.1, hfold.2.2.2⟩
  have hstock3 : s3.stock = [] := by
    rw [hfold'.2.1, hs2, copyDurationsUpTo_stock]
    rfl
  have htot3 : s3.totalFrames = d.sprite.totalFrames := by
    rw [hfold'.2.2.1, hs2, copyDurationsUpTo_totalFrames]
    rfl
  have hdur3 : s3.durations = d.sprite.durations := by
    rw [hfold'.1, hs2]
    apply copyDurationsUpTo_full
    · rw [hs1, Sprite.setTotalFrames_durations_length]
    · exact hdur
  have hpal3 : s3.palettes = d.sprite.palettes := by
    rw [hfold'.2.2.2]
    have : s2.palettes = [] := by
      rw [hs2, copyDurationsUpTo_palettes]
      rfl
    rw [this]
    rfl
  have hdst0 : ∀ id ∈ s3.stock, id < H.images.length := by
    intro id hid
    rw [hstock3] at hid
    simp at hid
  obtain ⟨⟨ext, hext⟩, ⟨newIds, hnew, hge⟩, hrange, hbound, hres⟩ :=
    copyLayerContent_spec d.sprite.stock d.sprite.root H s3.stock
      hsrc hdst0 hb
  rw [← hrr] at hrange hbound hres
  rw [hcomp]
  refine ⟨hres, congrArg LayerData.count hres, htot3, hdur3, hpal3,
    rfl, rfl, rfl, rfl, ?_, ?_⟩
  · intro id hid
    have hid' : id ∈ r.2.1 := hid
    rw [hnew, hstock3] at hid'
    simpa using hge id (by simpa using hid')
  · intro id hle data
    apply Layer.resolve_congr d.sprite.stock d.sprite.stock H
      (ImageHeap.writeAt r.2.2 id data) d.sprite.root hb
    intro i hi
    refine ⟨rfl, ?_⟩
    have hmem := stock_getD_mem _ _ hi
    have hlt := hsrc _ hmem
    rw [ImageHeap.dataAt_writeAt_ne _ _ _ _ (by omega)]
    have hr22 : r.2.2 = (⟨H.images ++ ext⟩ : ImageHeap) := ImageHeap.ext hext
    rw [hr22]
    exact ImageHeap.dataAt_append _ _ _ hlt

/-- Concrete heap with one allocated image, used to instantiate the
duplication theorems. -/
def sampleHeap : ImageHeap := ⟨[⟨0, 1, 1, [7]⟩]⟩

/-- Concrete source document with one image layer holding one cel, one
frame, one palette, and a transformation that differs from the one
derived from the mask bounds. -/
def sampleDoc : AppDocument :=
  { sprite :=
      { pixelFormat := 0
        width := 1
        height := 1
        totalFrames := 1
        durations := [100]
        palettes := [[1, 2]]
        stock := [0]
        root := .folder "root" [.image "layer" [⟨0, 0, 0, 255, 0⟩]] }
    gate := ⟨0, false⟩
    mask := ⟨⟨0, 0, 2, 2⟩, [true]⟩
    maskVisible := true
    transformation := ⟨⟨1, 1, 3, 3⟩, 45⟩
    associated_to_file := false
    context := none
    filename := "a" }

/-- C9 counterexample: duplication does not copy the transformation state.
Document::duplicate installs the mask copy through setMask, which calls
resetTransformation, so the copy gets the transformation rebuilt from the
copied mask bounds; at this concrete document that differs from the
source transformation, refuting the claim that the active
selection/transform state is equal by value to the source. -/
theorem C9_transformation_not_copied :
    (Document.duplicateExactCopy sampleDoc sampleHeap).1.transformation =
      ⟨⟨0, 0, 2, 2⟩, 0⟩
    ∧ sampleDoc.transformation = ⟨⟨1, 1, 3, 3⟩, 45⟩
    ∧ (Document.duplicateExactCopy sampleDoc sampleHeap).1.transformation ≠
        sampleDoc.transformation := by
  refine ⟨rfl, rfl, ?_⟩
  have h1 : (Document.duplicateExactCopy sampleDoc sampleHeap).1.transformation =
      (⟨⟨0, 0, 2, 2⟩, 0⟩ : Transform) := rfl
  rw [h1]
  decide

/-- Witness for C9 at the concrete document: the well-formedness
hypotheses hold there, and the copy carries the source frame durations
and a fresh gate. -/
theorem C9_duplicate_exact_copy_witness :
    (Document.duplicateExactCopy sampleDoc sampleHeap).1.sprite.durations =
      sampleDoc.sprite.durations
    ∧ (Document.duplicateExactCopy sampleDoc sampleHeap).1.gate = Gate.fresh :=
  ⟨(C9_duplicate_exact_copy sampleDoc sampleHeap (by decide) (by decide)
      (by decide)).2.2.2.1,
   (C9_duplicate_exact_copy sampleDoc sampleHeap (by decide) (by decide)
      (by decide)).2.2.2.2.2.2.2.2.1⟩

/-- Concrete document with one outstanding read ticket and no owning
context, used for the teardown claim. -/
def teardownDoc : AppDocument :=
  { sprite :=
      { pixelFormat := 0
        width := 1
        height := 1
        totalFrames := 1
        durations := [100]
        palettes := []
        stock := []
        root := .folder "" [] }
    gate := ⟨1, false⟩
    mask := ⟨⟨0, 0, 0, 0⟩, []⟩
    maskVisible := true
    transformation := ⟨⟨0, 0, 0, 0⟩, 0⟩
    associated_to_file := false
    context := none
    filename := "b" }

/-- C10 counterexample: a document holding an outstanding read ticket and
attached to no context passes the only check of Document::~Document (the
context assertion), so destroying it with a ticket outstanding is not
detected as an invariant violation, refuting the claim. -/
theorem C10_teardown_not_detected :
    Document.destructorAssertOk teardownDoc = true
    ∧ teardownDoc.gate.read_locks = 1
    ∧ teardownDoc.gate ≠ Gate.fresh := by
  decide

/-- C10 amended: the destructor of Document asserts only that the document
is not owned by a context; the assertion is insensitive to the gate state,
so outstanding read or write tickets pass teardown undetected. -/
theorem C10_destructor_ignores_gate (d : AppDocument) (g : Gate) :
    Document.destructorAssertOk { d with gate := g } =
      Document.destructorAssertOk d := rfl

end Aseprite
